import Mathlib

/-!
Verification of the distributed/parallel execution core of the `hyperdata`
repository (`src/reactive/mixins/ray.py`).

The embedding models:
  - `_map_task_ray` (lines 11-24): the per-element task wrapper;
  - `ray_resolve` (lines 79-141): the actor-pool variant, with its relay
    queue, submission-loop thread `worker`, output generator `inner`, and
    per-worker `cleanup`;
  - `_ray_pmap` (lines 143-183): the function-dispatch variant with its
    FIFO buffer of in-flight asynchronous calls.

Machinery external to the files under `src/` (the wrapped-result `Option`
type from `reactive.types.option`, the `EOS` sentinel class from
`reactive.mixins.parallel`, and the `ray.util.ActorPool` contract) is
modelled from the specification, as noted on each definition.
-/

namespace HyperdataRay

/-- Exceptions raised by Python callables are modelled as an opaque code. -/
abbrev Exc := Nat

/-- Modelled from the spec: the wrapped-result type of
`reactive.types.option` (not under `src/`).  A value flowing through a
pipeline is either a plain (raw) value, a successful wrapped value
`Some`, an `Empty()` with no reason, or a tagged failure
`Empty(_Reason(input, exc))` carrying the original input and the causing
exception. -/
inductive RVal where
  | raw : Int → RVal
  | someV : Int → RVal
  | emptyV : RVal
  | emptyR : RVal → Exc → RVal
deriving DecidableEq, Repr

/-- Fallible unary Python callables are modelled as functions into
`Except Exc Int`: `.error e` models raising exception `e`. -/
abbrev PyFun := Int → Except Exc Int

/-- Modelled from the spec: `Option.map` of the wrapped-result type
(`reactive.types.option`, not under `src/`): the transformation is applied
to the inner value of a `Some`, preserving the wrapping; an `Empty` is
carried forward unchanged as a special value; an exception raised by the
transformation propagates out of `map`. -/
def optionMap (f : PyFun) : RVal → Except Exc RVal
  | .someV n => (f n).map RVal.someV
  | v => .ok v

/-- Predicate mirroring Python `isinstance(x, Option)`: every constructor of
the wrapped-result type except a plain raw value is an `Option`. -/
def RVal.isOption : RVal → Bool
  | .raw _ => false
  | _ => true

/-- Embedding of `_map_task_ray` (`src/reactive/mixins/ray.py` lines 11-24).
Given the unary transformation `f` and an input `x`, the inner `map_wrapper`
tries: if `x` is an `Option` then `x.map(f)`, else `f x`; any exception is
caught, a warning is emitted, and `Empty(_Reason(x, e))` is returned.  The
boolean in the result records whether a warning was emitted. -/
def map_wrapper (f : PyFun) (x : RVal) : RVal × Bool :=
  let attempt : Except Exc RVal :=
    if x.isOption then optionMap f x
    else
      match x with
      | .raw n => (f n).map RVal.raw
      | v => .ok v
  match attempt with
  | .ok y => (y, false)
  | .error e => (.emptyR x e, true)

/-- Statement of the spec's contract for the task wrapper, written from the
spec's words (for comparison with `map_wrapper`, which is written from the
source): apply the transformation to the input, or to the inner value when
the input is a wrapped result, preserving the wrapping; an `Empty` input is
carried forward. -/
def specApply (f : PyFun) : RVal → Except Exc RVal
  | .raw n => (f n).map RVal.raw
  | .someV n => (f n).map RVal.someV
  | .emptyV => .ok .emptyV
  | .emptyR v e => .ok (.emptyR v e)

/-- Embedding of `remote_runner` of `_ray_pmap` (lines 162-164): each remote
call applies the wrapped transformation to one value; since `map_wrapper`
never raises, the remote call is modelled by the result value alone. -/
def remote_runner (f : PyFun) (val : RVal) : RVal :=
  (map_wrapper f val).1

/-- Embedding of the `num_worker` defaulting at the top of `_ray_pmap`
(lines 146-149): `if num_worker is None and self._num_worker is None:
num_worker = 2 else: num_worker = self._num_worker`.  `none` models Python
`None`; the first argument is the `num_worker` keyword argument, the second
the collection's configured `_num_worker`. -/
def pmapNumWorker (arg cfg : Option Nat) : Option Nat :=
  if arg = none ∧ cfg = none then some 2 else cfg

/-- Outcome of the dispatch at the top of `ray_resolve` (lines 83-84): either
the collection's ordinary local `map` is applied with a locally constructed
callable, or the actor-pool parallel path is engaged. -/
inductive ResolveOutcome where
  | localMapped : List Int → ResolveOutcome
  | parallelDispatch : ResolveOutcome
deriving DecidableEq, Repr

/-- Embedding of `ray_resolve`'s local-mapping shortcut (lines 83-84):
`if path in call_mapping: return self.map(call_mapping[path](*arg, **kws))`.
The call mapping sends a path to a factory which, applied to the call
arguments, yields a local callable; the collection is modelled as the list
of its elements and its ordinary `map` as `List.map`. -/
def ray_resolve_dispatch (call_mapping : String → Option (List Int → Int → Int))
    (path : String) (args : List Int) (src : List Int) : ResolveOutcome :=
  match call_mapping path with
  | some fac => .localMapped (src.map (fac args))
  | none => .parallelDispatch

/-- Errors of the modelled filesystem operations. -/
inductive FsError where
  | fileNotFound
deriving DecidableEq, Repr

/-- Modelled behaviour of `shutil.rmtree` on the default local cache root:
the filesystem state is the presence flag of that directory; removing it when
absent raises `FileNotFoundError`, otherwise it is removed. -/
def rmtree (cacheExists : Bool) : Except FsError Bool :=
  if cacheExists then .ok false else .error .fileNotFound

/-- Embedding of `OperatorActor.cleanup` (lines 98-106): `rmtree` the default
local cache root, swallowing `FileNotFoundError`.  The result is the new
filesystem state paired with the error surfaced to the caller, if any. -/
def cleanup (cacheExists : Bool) : Bool × Option FsError :=
  match rmtree cacheExists with
  | .ok fsNew => (fsNew, none)
  | .error .fileNotFound => (cacheExists, none)

/-- Modelled from the spec: the relay queue carries either a result item or
the end-of-stream sentinel `EOS` (class from `reactive.mixins.parallel`, not
under `src/`), a distinguished marker never equal to any valid result. -/
inductive QItem (β : Type) where
  | item : β → QItem β
  | eos : QItem β
deriving DecidableEq, Repr

/-- Test mirroring Python `isinstance(x, EOS)`. -/
def QItem.isEOS : QItem β → Bool
  | .eos => true
  | _ => false

/-- Embedding of the `worker` coroutine of `_ray_pmap` (lines 166-174),
instrumented.  The state threaded through the loop is the remaining source
and `buff`, the FIFO buffer of in-flight asynchronous calls; a future is
identified with the result it will deliver, since `remote_runner` applies a
deterministic total function.  The first component of the result is the
ordered trace of `queue.put` events; the second records the length of
`buff` observed at the head of each loop iteration and after the source is
exhausted.  When `len(buff) == num_worker` the oldest call `buff.pop(0)` is
awaited and its result enqueued before the new call is appended; if that
happens on an empty buffer (possible only when `num_worker` is `0`),
`buff.pop(0)` raises `IndexError` and the thread dies, producing no further
events. -/
def pmapWorkerFull (K : Nat) (g : γ → β) : List γ → List β → List (QItem β) × List Nat
  | [], buff => (buff.map QItem.item ++ [QItem.eos], [buff.length])
  | x :: xs, buff =>
    if buff.length = K then
      match buff with
      | [] => ([], [buff.length])
      | y :: rest =>
        let p := pmapWorkerFull K g xs (rest ++ [g x])
        (QItem.item y :: p.1, buff.length :: p.2)
    else
      let p := pmapWorkerFull K g xs (buff ++ [g x])
      (p.1, buff.length :: p.2)

/-- Trace of `queue.put` events of the `_ray_pmap` worker. -/
def pmapWorker (K : Nat) (g : γ → β) (src : List γ) (buff : List β) : List (QItem β) :=
  (pmapWorkerFull K g src buff).1

/-- Buffer lengths observed across the `_ray_pmap` worker's loop. -/
def pmapBuffLens (K : Nat) (g : γ → β) (src : List γ) (buff : List β) : List Nat :=
  (pmapWorkerFull K g src buff).2

/-- Embedding of the `inner` generator of `_ray_pmap` (lines 154-160): pop
items from the relay queue, yield each non-sentinel item, stop at the
sentinel.  The argument is the ordered sequence of items the queue delivers. -/
def pmapInner : List (QItem β) → List β
  | [] => []
  | QItem.eos :: _ => []
  | QItem.item x :: rest => x :: pmapInner rest

/-- Removal of the element at index `i` from a list, returning the element
and the remaining list; `none` when the index is out of range.  Used to model
out-of-order completion: `ray.util.ActorPool.get_next` hands back one of the
in-flight results, and a schedule chooses which. -/
def takeIdx : Nat → List β → Option (β × List β)
  | _, [] => none
  | 0, x :: xs => some (x, xs)
  | n + 1, x :: xs =>
    match takeIdx n xs with
    | some (y, ys) => some (y, x :: ys)
    | none => none

/-- Embedding of the per-element part of the `worker` thread of `ray_resolve`
(lines 127-132).  The ActorPool of `num_worker` actors is modelled from the
spec's Worker Pool Adapter contract: the pool has a free actor exactly when
fewer than `K` tasks are in flight; `get_next` returns one in-flight result,
chosen by the schedule `sched` (completion order need not match submission
order); each task's result is the deterministic `g` applied to its input.
For each source element: while the pool has no free actor, one completed
result is fetched and enqueued; then the element is submitted.  Returns the
ordered trace of `queue.put` events of this phase and the in-flight results
remaining when the source is exhausted.  A pool of `0` actors never has a
free actor nor a next result, so the busy-wait spins forever: that run
produces no further events, modelled by returning the state unchanged with
an empty trace. -/
def raySubmitLoop (K : Nat) (sched : Nat → Nat) (g : γ → β) :
    List γ → List β → Nat → List β × List β
  | [], inflight, _ => ([], inflight)
  | x :: xs, inflight, n =>
    if inflight.length = K then
      match takeIdx (sched n % K) inflight with
      | some (y, rest) =>
        let p := raySubmitLoop K sched g xs (rest ++ [g x]) (n + 1)
        (y :: p.1, p.2)
      | none => ([], inflight)
    else
      raySubmitLoop K sched g xs (inflight ++ [g x]) n

/-- Embedding of the final drain of the `worker` thread (lines 133-134):
`while pool.has_next(): queue.put(pool.get_next())`.  Each iteration removes
one in-flight result (chosen by the schedule), so the loop runs exactly once
per remaining in-flight task; the fuel argument, instantiated with the
number of in-flight tasks, makes that termination measure explicit. -/
def rayDrainFuel (sched : Nat → Nat) : Nat → List β → Nat → List β
  | 0, _, _ => []
  | _ + 1, [], _ => []
  | fuel + 1, y :: l, n =>
    match takeIdx (sched n % (y :: l).length) (y :: l) with
    | some (z, rest) => z :: rayDrainFuel sched fuel rest (n + 1)
    | none => []

/-- Ordered trace of the final drain of the `worker` thread. -/
def rayDrain (sched : Nat → Nat) (inflight : List β) (n : Nat) : List β :=
  rayDrainFuel sched inflight.length inflight n

/-- Full trace of `queue.put` events of the `worker` thread of `ray_resolve`
(lines 127-135): the puts of the submission phase, the puts of the final
drain, and one end-of-stream sentinel.  `schedA` and `schedB` are the
completion schedules of the two phases. -/
def rayWorkerTrace (K : Nat) (schedA schedB : Nat → Nat) (g : γ → β)
    (src : List γ) : List (QItem β) :=
  let p := raySubmitLoop K schedA g src [] 0
  (p.1 ++ rayDrain schedB p.2 0).map QItem.item ++ [QItem.eos]

/-- Result of one full consumption pass of the `inner` generator of
`ray_resolve`. -/
structure InnerRun (β : Type) where
  yielded : List β
  cleanupCalls : List (Nat × Bool)
deriving DecidableEq, Repr

/-- Embedding of the `inner` generator of `ray_resolve` (lines 117-125): pop
items from the relay queue, yield each non-sentinel item; on observing the
sentinel, stop and fire `x.cleanup.remote()` on every actor of the pool, in
order.  Actors are identified by index; `cr` gives the outcome of each
actor's asynchronous cleanup call, which is recorded but — the call being
fire-and-forget — never influences the yielded sequence.  An exhausted queue
sequence without a sentinel models the producer thread dying: the consumer
blocks forever and no cleanup happens. -/
def ray_inner (cr : Nat → Bool) (actors : List Nat) :
    List (QItem β) → InnerRun β
  | [] => ⟨[], []⟩
  | QItem.eos :: _ => ⟨[], actors.map (fun a => (a, cr a))⟩
  | QItem.item x :: rest =>
    let p := ray_inner cr actors rest
    ⟨x :: p.yielded, p.cleanupCalls⟩

/-- State of the producer-consumer system around the relay queue: how many
`queue.put` events the producer thread has performed, the current contents
of the queue, and how many items the consumer has popped. -/
structure QueueState (β : Type) where
  emitted : Nat
  buffer : List (QItem β)
  consumed : Nat
deriving DecidableEq, Repr

/-- Infinite producer stream obtained from a worker trace: the n-th
`queue.put` carries the n-th trace event (padding past the end of a finite
trace is irrelevant, as reachability never forces puts). -/
def traceProd (tr : List (QItem β)) : Nat → QItem β :=
  fun n => tr.getD n QItem.eos

/-- Small-step semantics of Python's bounded `Queue(K)` as used by both
workers: `put` appends the producer's next event and blocks unless the
queue holds fewer than `K` items (the blocking guard of `Queue(maxsize)`
for a positive maxsize); `get` pops the oldest item.  `prod` is the
sequence of items the producer thread puts. -/
inductive QueueStep (K : Nat) (prod : Nat → QItem β) :
    QueueState β → QueueState β → Prop
  | put {n q c} : q.length < K →
      QueueStep K prod ⟨n, q, c⟩ ⟨n + 1, q ++ [prod n], c⟩
  | get {n x q c} :
      QueueStep K prod ⟨n, x :: q, c⟩ ⟨n, q, c + 1⟩

/-- Reachability through interleavings of producer puts and consumer gets. -/
def QueueReach (K : Nat) (prod : Nat → QItem β) :
    QueueState β → QueueState β → Prop :=
  Relation.ReflTransGen (QueueStep K prod)

/-!  Supporting lemmas. -/

/-- Key behaviour of the `_ray_pmap` worker: starting from a buffer within
capacity, the emitted trace is the buffered results followed by the mapped
source, in order, closed by a single sentinel. -/
theorem pmapWorkerFull_trace_eq (K : Nat) (hK : 1 ≤ K) (g : γ → β) :
    ∀ (src : List γ) (buff : List β), buff.length ≤ K →
      (pmapWorkerFull K g src buff).1
        = (buff ++ src.map g).map QItem.item ++ [QItem.eos] := by
  intro src
  induction src with
  | nil => intro buff _; simp [pmapWorkerFull]
  | cons x xs ih =>
    intro buff hb
    by_cases hfull : buff.length = K
    · match buff, hfull with
      | [], hfull => simp at hfull; omega
      | y :: rest, hfull =>
        have hlen : (rest ++ [g x]).length ≤ K := by
          simp at hfull ⊢; omega
        simp only [pmapWorkerFull, hfull, if_pos rfl, ih _ hlen]
        simp
    · have hlen : (buff ++ [g x]).length ≤ K := by
        simp; omega
      simp only [pmapWorkerFull, if_neg hfull, ih _ hlen]
      simp

/-- Unfolding law of the `_ray_pmap` worker at a full buffer: the oldest
in-flight call is awaited and its result enqueued before the new call is
appended. -/
theorem pmapWorkerFull_cons_full (K : Nat) (g : γ → β) (x : γ) (xs : List γ)
    (y : β) (rest : List β) (h : (y :: rest).length = K) :
    pmapWorkerFull K g (x :: xs) (y :: rest)
      = (QItem.item y :: (pmapWorkerFull K g xs (rest ++ [g x])).1,
         (y :: rest).length :: (pmapWorkerFull K g xs (rest ++ [g x])).2) := by
  simp [pmapWorkerFull, h]

/-- Consuming a trace of items followed by the sentinel yields the items. -/
theorem pmapInner_items (l : List β) :
    pmapInner (l.map QItem.item ++ [QItem.eos]) = l := by
  induction l with
  | nil => simp [pmapInner]
  | cons x xs ih => simpa [pmapInner] using ih

/-- Buffer-length bound for the `_ray_pmap` worker: every observed buffer
length stays within the worker count. -/
theorem pmapBuffLens_bounded (K : Nat) (g : γ → β) :
    ∀ (src : List γ) (buff : List β), buff.length ≤ K →
      ∀ n ∈ (pmapWorkerFull K g src buff).2, n ≤ K := by
  intro src
  induction src with
  | nil => intro buff hb; simpa [pmapWorkerFull] using hb
  | cons x xs ih =>
    intro buff hb n hn
    by_cases hfull : buff.length = K
    · match buff, hfull with
      | [], hfull =>
        simp only [pmapWorkerFull, hfull, if_pos rfl] at hn
        simp at hn
        omega
      | y :: rest, hfull =>
        have hlen : (rest ++ [g x]).length ≤ K := by
          simp at hfull ⊢; omega
        simp only [pmapWorkerFull, hfull, if_pos rfl] at hn
        rcases List.mem_cons.mp hn with h | h
        · omega
        · exact ih _ hlen n h
    · have hlen : (buff ++ [g x]).length ≤ K := by
        simp; omega
      simp only [pmapWorkerFull, if_neg hfull] at hn
      rcases List.mem_cons.mp hn with h | h
      · omega
      · exact ih _ hlen n h

theorem takeIdx_lt {i : Nat} {l : List β} (h : i < l.length) :
    ∃ y rest, takeIdx i l = some (y, rest)
      ∧ rest.length + 1 = l.length ∧ l.Perm (y :: rest) := by
  induction l generalizing i with
  | nil => simp at h
  | cons x xs ih =>
    cases i with
    | zero => exact ⟨x, xs, rfl, by simp, List.Perm.refl _⟩
    | succ n =>
      have hn : n < xs.length := by simpa using h
      obtain ⟨y, rest, heq, hlen, hperm⟩ := ih hn
      refine ⟨y, x :: rest, ?_, by simp [← hlen], ?_⟩
      · simp [takeIdx, heq]
      · exact (hperm.cons x).trans (List.Perm.swap y x rest)

/-- Submission-phase accounting: within capacity, the emitted results plus
the remaining in-flight results are a permutation of the initial in-flight
results plus the mapped source. -/
theorem raySubmitLoop_perm (K : Nat) (hK : 1 ≤ K) (sched : Nat → Nat) (g : γ → β) :
    ∀ (src : List γ) (inflight : List β) (n : Nat), inflight.length ≤ K →
      ((raySubmitLoop K sched g src inflight n).1
        ++ (raySubmitLoop K sched g src inflight n).2).Perm
        (inflight ++ src.map g) := by
  intro src
  induction src with
  | nil => intro inflight n _; simp [raySubmitLoop]
  | cons x xs ih =>
    intro inflight n hb
    by_cases hfull : inflight.length = K
    · have hlt : sched n % K < inflight.length := by
        rw [hfull]; exact Nat.mod_lt _ (by omega)
      obtain ⟨y, rest, heq, hlen, hperm⟩ := takeIdx_lt hlt
      have hlen2 : (rest ++ [g x]).length ≤ K := by
        simp; omega
      have hih := ih (rest ++ [g x]) (n + 1) hlen2
      simp only [raySubmitLoop, hfull, if_pos rfl, heq]
      refine (hih.cons y).trans ?_
      have h3 := hperm.symm.append_right (g x :: xs.map g)
      simpa [List.append_assoc] using h3
    · have hlen2 : (inflight ++ [g x]).length ≤ K := by
        simp; omega
      have hih := ih (inflight ++ [g x]) n hlen2
      simp only [raySubmitLoop, if_neg hfull]
      simpa using hih

/-- Drain accounting: the final drain emits exactly the in-flight results,
in some order. -/
theorem rayDrainFuel_perm (sched : Nat → Nat) :
    ∀ (fuel : Nat) (l : List β) (n : Nat), l.length ≤ fuel →
      (rayDrainFuel sched fuel l n).Perm l := by
  intro fuel
  induction fuel with
  | zero =>
    intro l n h
    match l, h with
    | [], _ => simp [rayDrainFuel]
  | succ f ih =>
    intro l n h
    match l with
    | [] => simp [rayDrainFuel]
    | y :: l0 =>
      have hlt : sched n % (y :: l0).length < (y :: l0).length :=
        Nat.mod_lt _ (by simp)
      obtain ⟨z, rest, heq, hlen, hperm⟩ := takeIdx_lt hlt
      have hr : rest.length ≤ f := by
        simp only [List.length_cons] at hlen h; omega
      simp only [rayDrainFuel, heq]
      exact ((ih rest (n + 1) hr).cons z).trans hperm.symm

theorem rayDrain_perm (sched : Nat → Nat) (l : List β) (n : Nat) :
    (rayDrain sched l n).Perm l :=
  rayDrainFuel_perm sched l.length l n le_rfl

/-- End-to-end accounting for the `ray_resolve` worker: the non-sentinel
items of its trace are a permutation of the mapped source. -/
theorem rayWorkerTrace_perm (K : Nat) (hK : 1 ≤ K) (schedA schedB : Nat → Nat)
    (g : γ → β) (src : List γ) :
    ∃ out : List β, out.Perm (src.map g)
      ∧ rayWorkerTrace K schedA schedB g src
          = out.map QItem.item ++ [QItem.eos] := by
  refine ⟨(raySubmitLoop K schedA g src [] 0).1
    ++ rayDrain schedB (raySubmitLoop K schedA g src [] 0).2 0, ?_, rfl⟩
  have h1 := raySubmitLoop_perm K hK schedA g src [] 0 (by simp)
  have h2 := rayDrain_perm schedB (raySubmitLoop K schedA g src [] 0).2 0
  exact (List.Perm.append_left _ h2).trans h1

/-- Consuming an item trace closed by a sentinel yields all items and fires
one cleanup call per actor. -/
theorem ray_inner_items (cr : Nat → Bool) (actors : List Nat) (l : List β) :
    ray_inner cr actors (l.map QItem.item ++ [QItem.eos])
      = ⟨l, actors.map (fun a => (a, cr a))⟩ := by
  induction l with
  | nil => simp [ray_inner]
  | cons x xs ih => simp [ray_inner, ih]

/-- Before the sentinel has been observed, no cleanup call has been fired. -/
theorem ray_inner_no_eos (cr : Nat → Bool) (actors : List Nat) :
    ∀ pre : List (QItem β), QItem.eos ∉ pre →
      (ray_inner cr actors pre).cleanupCalls = [] := by
  intro pre
  induction pre with
  | nil => intro _; rfl
  | cons q rest ih =>
    intro h
    match q with
    | QItem.eos => exact absurd (List.mem_cons_self _ _) h
    | QItem.item x =>
      have := ih (fun hm => h (List.mem_cons_of_mem _ hm))
      simpa [ray_inner] using this

/-- Single queue steps preserve the occupancy bound. -/
theorem QueueStep_bound {K : Nat} {prod : Nat → QItem β}
    {s t : QueueState β} (h : QueueStep K prod s t)
    (hs : s.buffer.length ≤ K) : t.buffer.length ≤ K := by
  cases h with
  | put hlt => simpa using hlt
  | get => simp at hs ⊢; omega

/-- Occupancy invariant: every state reachable from a state within the bound
stays within the bound. -/
theorem QueueReach_bound {K : Nat} {prod : Nat → QItem β}
    {s t : QueueState β} (h : QueueReach K prod s t)
    (hs : s.buffer.length ≤ K) : t.buffer.length ≤ K := by
  induction h with
  | refl => exact hs
  | tail _ hstep ih => exact QueueStep_bound hstep ih

/-- An item-then-sentinel trace contains exactly one sentinel. -/
theorem trace_countP_eos (l : List β) :
    (l.map QItem.item ++ [QItem.eos]).countP QItem.isEOS = 1 := by
  rw [List.countP_append]
  have h0 : (l.map QItem.item).countP QItem.isEOS = 0 := by
    rw [List.countP_eq_zero]
    intro q hq
    obtain ⟨x, _, rfl⟩ := List.mem_map.mp hq
    simp [QItem.isEOS]
  simp [h0, List.countP_cons, QItem.isEOS]

/-- The sentinel of an item-then-sentinel trace is its last event. -/
theorem trace_getLast_eos (l : List β) :
    (l.map QItem.item ++ [QItem.eos]).getLast? = some QItem.eos := by
  rw [List.getLast?_append]
  rfl

/-- The non-sentinel events of an item-then-sentinel trace are its items. -/
theorem trace_filter_items (l : List β) :
    (l.map QItem.item ++ [QItem.eos]).filter (fun q => !QItem.isEOS q)
      = l.map QItem.item := by
  rw [List.filter_append]
  have h1 : (l.map QItem.item).filter (fun q => !QItem.isEOS q) = l.map QItem.item := by
    rw [List.filter_eq_self]
    intro q hq
    obtain ⟨x, _, rfl⟩ := List.mem_map.mp hq
    simp [QItem.isEOS]
  simp [h1, QItem.isEOS]

/-!  Claims. -/

/-- C1: for every finite source sequence of length N and every worker count
K ≥ 1, both parallel-map variants yield exactly N non-sentinel items — one
per source element — regardless of the order in which workers complete
tasks (the completion schedules are universally quantified). -/
theorem C1_parallel_map_output_count (K : Nat) (hK : 1 ≤ K) (f : PyFun)
    (src : List RVal) (schedA schedB : Nat → Nat) (cr : Nat → Bool) :
    (ray_inner cr (List.range K)
        (rayWorkerTrace K schedA schedB (remote_runner f) src)).yielded.length
      = src.length ∧
    (pmapInner (pmapWorker K (remote_runner f) src [])).length = src.length := by
  constructor
  · obtain ⟨out, hperm, heq⟩ :=
      rayWorkerTrace_perm K hK schedA schedB (remote_runner f) src
    rw [heq, ray_inner_items]
    simpa using hperm.length_eq
  · rw [pmapWorker, pmapWorkerFull_trace_eq K hK _ src [] (by simp)]
    simpa using congrArg List.length (pmapInner_items (src.map (remote_runner f)))

/-- C2: the per-element task wrapper never propagates an exception.  When
applying the transformation to the input — or to its inner value when the
input is a wrapped result, preserving the wrapping — raises `e`, the wrapper
emits a warning and returns the tagged failure `Empty(_Reason(x, e))`
carrying the original input; otherwise it returns the successful output and
emits no warning.  `specApply` is the spec-side description of applying the
transformation through the wrapping. -/
theorem C2_task_wrapper_fault_isolation (f : PyFun) (x : RVal) :
    (∀ e, specApply f x = .error e →
      map_wrapper f x = (RVal.emptyR x e, true)) ∧
    (∀ y, specApply f x = .ok y → map_wrapper f x = (y, false)) := by
  cases x with
  | raw n =>
    cases hf : f n <;>
      simp [map_wrapper, specApply, RVal.isOption, hf, Except.map]
  | someV n =>
    cases hf : f n <;>
      simp [map_wrapper, specApply, RVal.isOption, optionMap, hf, Except.map]
  | emptyV =>
    simp [map_wrapper, specApply, RVal.isOption, optionMap]
  | emptyR v e =>
    simp [map_wrapper, specApply, RVal.isOption, optionMap]

/-- C3: each submission-loop run enqueues exactly one end-of-stream
sentinel, as the very last event of its trace, after the results of all
submitted tasks (which are a permutation of the mapped source — no result
dropped, none after the sentinel); this holds for the actor-pool worker
under every completion schedule, and for the function-dispatch worker. -/
theorem C3_sentinel_unique_and_last (K : Nat) (hK : 1 ≤ K) (g : RVal → RVal)
    (src : List RVal) (schedA schedB : Nat → Nat) :
    ((rayWorkerTrace K schedA schedB g src).countP QItem.isEOS = 1 ∧
     (rayWorkerTrace K schedA schedB g src).getLast? = some QItem.eos ∧
     ((rayWorkerTrace K schedA schedB g src).filter
        (fun q => !QItem.isEOS q)).Perm ((src.map g).map QItem.item)) ∧
    ((pmapWorker K g src []).countP QItem.isEOS = 1 ∧
     (pmapWorker K g src []).getLast? = some QItem.eos ∧
     (pmapWorker K g src []).filter (fun q => !QItem.isEOS q)
        = (src.map g).map QItem.item) := by
  obtain ⟨out, hperm, heq⟩ := rayWorkerTrace_perm K hK schedA schedB g src
  have hp : pmapWorker K g src [] = (src.map g).map QItem.item ++ [QItem.eos] := by
    rw [pmapWorker, pmapWorkerFull_trace_eq K hK _ src [] (by simp)]
    simp
  refine ⟨⟨?_, ?_, ?_⟩, ?_, ?_, ?_⟩
  · rw [heq]; exact trace_countP_eos out
  · rw [heq]; exact trace_getLast_eos out
  · rw [heq, trace_filter_items]; exact hperm.map QItem.item
  · rw [hp]; exact trace_countP_eos (src.map g)
  · rw [hp]; exact trace_getLast_eos (src.map g)
  · rw [hp]; exact trace_filter_items (src.map g)

/-- C4: the relay queue is created with capacity `num_worker`, so under the
bounded-queue semantics every state reachable from the empty queue — with
the producer driven by either worker's event trace and the consumer popping
concurrently, in any interleaving — holds at most K items; the bound is
independent of the source. -/
theorem C4_relay_queue_bounded (K : Nat) (g : RVal → RVal) (src : List RVal)
    (schedA schedB : Nat → Nat) (s : QueueState RVal)
    (h : QueueReach K (traceProd (rayWorkerTrace K schedA schedB g src))
          ⟨0, [], 0⟩ s
        ∨ QueueReach K (traceProd (pmapWorker K g src [])) ⟨0, [], 0⟩ s) :
    s.buffer.length ≤ K := by
  rcases h with h | h <;> exact QueueReach_bound h (by simp)

/-- C5: evaluation of the `num_worker` defaulting of `_ray_pmap` at the
relevant configurations.  The last two conjuncts exhibit the divergence
from the claim: a `num_worker` argument supplied while the collection has
no configured count yields `None` (not the argument, and `Queue(None)`
then fails), and a supplied argument is ignored in favour of the
configured count. -/
theorem C5_num_worker_arg_discarded :
    pmapNumWorker none none = some 2 ∧
    pmapNumWorker none (some 3) = some 3 ∧
    pmapNumWorker (some 5) none = none ∧
    pmapNumWorker (some 5) (some 3) = some 3 := by
  decide

/-- C6: in the function-dispatch variant, the in-flight buffer observed at
every point of the submission loop holds at most `num_worker` calls, for
every source; and whenever the buffer is full, the oldest outstanding call
is awaited and its result enqueued before the new call is started. -/
theorem C6_pmap_inflight_bounded (K : Nat) (hK : 1 ≤ K) (f : PyFun)
    (src : List RVal) :
    (∀ n ∈ pmapBuffLens K (remote_runner f) src [], n ≤ K) ∧
    (∀ (x : RVal) (xs : List RVal) (y : RVal) (rest : List RVal),
      (y :: rest).length = K →
      pmapWorker K (remote_runner f) (x :: xs) (y :: rest)
        = QItem.item y
            :: pmapWorker K (remote_runner f) xs (rest ++ [remote_runner f x])) := by
  constructor
  · exact fun n hn => pmapBuffLens_bounded K _ src [] (by simp) n hn
  · intro x xs y rest hlen
    rw [pmapWorker, pmapWorkerFull_cons_full K _ x xs y rest hlen]
    rfl

/-- C7: when the transformation's path is present in the local call mapping,
`ray_resolve` bypasses the parallel dispatch entirely and applies the
collection's ordinary local map with the locally constructed callable;
the parallel path is engaged exactly for paths absent from the mapping. -/
theorem C7_local_mapping_bypass
    (call_mapping : String → Option (List Int → Int → Int))
    (path : String) (args : List Int) (src : List Int) :
    (∀ fac, call_mapping path = some fac →
      ray_resolve_dispatch call_mapping path args src
        = .localMapped (src.map (fac args))) ∧
    (call_mapping path = none →
      ray_resolve_dispatch call_mapping path args src = .parallelDispatch) := by
  constructor
  · intro fac hf; simp [ray_resolve_dispatch, hf]
  · intro hf; simp [ray_resolve_dispatch, hf]

/-- C8: over a fully consumed actor-pool run, cleanup is fired exactly once
per worker (the cleanup calls list the pool's actors, which are pairwise
distinct), only after the sentinel was enqueued and observed (an eos-free
queue prefix fires no cleanup), and the cleanup outcomes — the calls being
fire-and-forget — never influence the yielded output. -/
theorem C8_teardown_once_after_sentinel (K : Nat) (hK : 1 ≤ K)
    (g : RVal → RVal) (src : List RVal) (schedA schedB : Nat → Nat)
    (cr cr2 : Nat → Bool) :
    ((ray_inner cr (List.range K)
        (rayWorkerTrace K schedA schedB g src)).cleanupCalls.map Prod.fst
      = List.range K) ∧
    (List.range K).Nodup ∧
    ((ray_inner cr (List.range K)
        (rayWorkerTrace K schedA schedB g src)).yielded
      = (ray_inner cr2 (List.range K)
        (rayWorkerTrace K schedA schedB g src)).yielded) ∧
    (∀ pre : List (QItem RVal), QItem.eos ∉ pre →
      (ray_inner cr (List.range K) pre).cleanupCalls = []) := by
  obtain ⟨out, _, heq⟩ := rayWorkerTrace_perm K hK schedA schedB g src
  refine ⟨?_, List.nodup_range K, ?_, ray_inner_no_eos cr (List.range K)⟩
  · rw [heq, ray_inner_items]
    show ((List.range K).map (fun a => (a, cr a))).map Prod.fst = List.range K
    rw [List.map_map]
    exact List.map_id _
  · rw [heq, ray_inner_items, ray_inner_items]

/-- C9: worker teardown tolerates an absent cache directory — cleaning up
when the cache root does not exist surfaces no error and leaves the state
unchanged — and repeated cleanup calls are idempotent. -/
theorem C9_cleanup_missing_path_tolerated (b : Bool) :
    cleanup false = (false, none) ∧
    (cleanup b).2 = none ∧
    cleanup (cleanup b).1 = cleanup b := by
  cases b <;> decide

/-- C10: in the function-dispatch variant, in-flight calls are drained
oldest-first from a FIFO buffer, so the output sequence equals the
sequential map of the wrapped transformation over the source, element for
element. -/
theorem C10_pmap_order_preserved (K : Nat) (hK : 1 ≤ K) (f : PyFun)
    (src : List RVal) :
    pmapInner (pmapWorker K (remote_runner f) src [])
      = src.map (remote_runner f) := by
  rw [pmapWorker, pmapWorkerFull_trace_eq K hK _ src [] (by simp)]
  simpa using pmapInner_items (src.map (remote_runner f))

/-!  Witnesses: concrete instances discharging each hypothesis. -/

theorem C1_witness :
    1 ≤ 2 ∧
    ((ray_inner (fun _ => true) (List.range 2)
        (rayWorkerTrace 2 (fun _ => 0) (fun _ => 0)
          (remote_runner (fun n => Except.ok (n * n)))
          [RVal.raw 1, RVal.raw 2, RVal.raw 3])).yielded.length
        = [RVal.raw 1, RVal.raw 2, RVal.raw 3].length ∧
     (pmapInner (pmapWorker 2 (remote_runner (fun n => Except.ok (n * n)))
          [RVal.raw 1, RVal.raw 2, RVal.raw 3] [])).length
        = [RVal.raw 1, RVal.raw 2, RVal.raw 3].length) :=
  ⟨by decide,
   C1_parallel_map_output_count 2 (by decide) (fun n => Except.ok (n * n))
     [RVal.raw 1, RVal.raw 2, RVal.raw 3] (fun _ => 0) (fun _ => 0)
     (fun _ => true)⟩

theorem C2_witness :
    specApply (fun n => if n = 0 then Except.error 7 else Except.ok (10 / n))
        (RVal.raw 0) = Except.error 7 ∧
    map_wrapper (fun n => if n = 0 then Except.error 7 else Except.ok (10 / n))
        (RVal.raw 0) = (RVal.emptyR (RVal.raw 0) 7, true) :=
  ⟨by simp [specApply, Except.map],
   (C2_task_wrapper_fault_isolation
      (fun n => if n = 0 then Except.error 7 else Except.ok (10 / n))
      (RVal.raw 0)).1 7 (by simp [specApply, Except.map])⟩

theorem C3_witness :
    1 ≤ 1 ∧
    (((rayWorkerTrace 1 (fun _ => 0) (fun _ => 0) (fun v => v)
          [RVal.raw 1, RVal.raw 2]).countP QItem.isEOS = 1 ∧
       (rayWorkerTrace 1 (fun _ => 0) (fun _ => 0) (fun v => v)
          [RVal.raw 1, RVal.raw 2]).getLast? = some QItem.eos ∧
       ((rayWorkerTrace 1 (fun _ => 0) (fun _ => 0) (fun v => v)
          [RVal.raw 1, RVal.raw 2]).filter
            (fun q => !QItem.isEOS q)).Perm
          (([RVal.raw 1, RVal.raw 2].map (fun v => v)).map QItem.item)) ∧
      ((pmapWorker 1 (fun v => v) [RVal.raw 1, RVal.raw 2] []).countP
          QItem.isEOS = 1 ∧
       (pmapWorker 1 (fun v => v) [RVal.raw 1, RVal.raw 2] []).getLast?
          = some QItem.eos ∧
       (pmapWorker 1 (fun v => v) [RVal.raw 1, RVal.raw 2] []).filter
            (fun q => !QItem.isEOS q)
          = ([RVal.raw 1, RVal.raw 2].map (fun v => v)).map QItem.item)) :=
  ⟨by decide,
   C3_sentinel_unique_and_last 1 (by decide) (fun v => v)
     [RVal.raw 1, RVal.raw 2] (fun _ => 0) (fun _ => 0)⟩

theorem C4_witness :
    (QueueReach 2
        (traceProd (rayWorkerTrace 2 (fun _ => 0) (fun _ => 0)
          (fun v : RVal => v) [RVal.raw 5]))
        ⟨0, [], 0⟩ ⟨1, [QItem.item (RVal.raw 5)], 0⟩
      ∨ QueueReach 2
        (traceProd (pmapWorker 2 (fun v : RVal => v) [RVal.raw 5] []))
        ⟨0, [], 0⟩ ⟨1, [QItem.item (RVal.raw 5)], 0⟩) ∧
    (⟨1, [QItem.item (RVal.raw 5)], 0⟩ : QueueState RVal).buffer.length ≤ 2 :=
  ⟨Or.inl (Relation.ReflTransGen.single (QueueStep.put (by decide))),
   C4_relay_queue_bounded 2 (fun v => v) [RVal.raw 5] (fun _ => 0) (fun _ => 0)
     ⟨1, [QItem.item (RVal.raw 5)], 0⟩
     (Or.inl (Relation.ReflTransGen.single (QueueStep.put (by decide))))⟩

theorem C6_witness :
    1 ≤ 2 ∧
    pmapWorker 2 (remote_runner (fun n => Except.ok (n + 1)))
        [RVal.raw 3, RVal.raw 4] [RVal.raw 1, RVal.raw 2]
      = QItem.item (RVal.raw 1)
          :: pmapWorker 2 (remote_runner (fun n => Except.ok (n + 1)))
            [RVal.raw 4]
            ([RVal.raw 2] ++ [remote_runner (fun n => Except.ok (n + 1)) (RVal.raw 3)]) :=
  ⟨by decide,
   (C6_pmap_inflight_bounded 2 (by decide) (fun n => Except.ok (n + 1))
      [RVal.raw 3, RVal.raw 4]).2
     (RVal.raw 3) [RVal.raw 4] (RVal.raw 1) [RVal.raw 2] (by decide)⟩

theorem C7_witness :
    ((fun p => if p = "add1" then some (fun _ n => n + 1) else none :
        String → Option (List Int → Int → Int)) "add1"
      = some (fun _ n => n + 1)) ∧
    ray_resolve_dispatch
        (fun p => if p = "add1" then some (fun _ n => n + 1) else none)
        "add1" [] [1, 2, 3]
      = ResolveOutcome.localMapped
          ([1, 2, 3].map ((fun _ n => n + 1 : List Int → Int → Int) [])) :=
  ⟨by simp,
   (C7_local_mapping_bypass
      (fun p => if p = "add1" then some (fun _ n => n + 1) else none)
      "add1" [] [1, 2, 3]).1 (fun _ n => n + 1) (by simp)⟩

theorem C8_witness :
    1 ≤ 1 ∧
    ((ray_inner (fun _ => true) (List.range 1)
        (rayWorkerTrace 1 (fun _ => 0) (fun _ => 0) (fun v => v)
          [RVal.raw 9])).cleanupCalls.map Prod.fst = List.range 1) ∧
    (ray_inner (fun _ => true) (List.range 1)
        [QItem.item (RVal.raw 9)]).cleanupCalls = ([] : List (Nat × Bool)) :=
  ⟨by decide,
   (C8_teardown_once_after_sentinel 1 (by decide) (fun v => v) [RVal.raw 9]
      (fun _ => 0) (fun _ => 0) (fun _ => true) (fun _ => false)).1,
   (C8_teardown_once_after_sentinel 1 (by decide) (fun v => v) [RVal.raw 9]
      (fun _ => 0) (fun _ => 0) (fun _ => true) (fun _ => false)).2.2.2
     [QItem.item (RVal.raw 9)] (by decide)⟩

theorem C10_witness :
    1 ≤ 2 ∧
    pmapInner (pmapWorker 2 (remote_runner (fun n => Except.ok (n + 1)))
        [RVal.raw 1, RVal.raw 2, RVal.raw 3] [])
      = [RVal.raw 1, RVal.raw 2, RVal.raw 3].map
          (remote_runner (fun n => Except.ok (n + 1))) :=
  ⟨by decide,
   C10_pmap_order_preserved 2 (by decide) (fun n => Except.ok (n + 1))
     [RVal.raw 1, RVal.raw 2, RVal.raw 3]⟩

end HyperdataRay
